import Mathlib

/-!
# Verification of the YAML-file scanner (`src/scanner`)

Shallow embedding of the scanner's core logic (`src/scanner/core.py` and
`src/scanner/filters.py`) and proofs of the specified properties.

Modelling choices, all translated from the source:

* A filesystem path is its list of components below the root `/`
  (`pathlib.PurePosixPath.parts` without the leading `/`).  The canonical
  string of a path (`str(path)`) is `/` followed by the components joined
  with `/`.
* `pathlib` accessors (`name`, `suffix`, `parents`) are translated from
  CPython's `pathlib` implementation.
* The filesystem itself is the environment: directory enumeration
  (`Path.rglob("*")` / `Path.iterdir()`) is modelled as a finite stream of
  directory entries optionally terminated by an OS-level error
  (`PermissionError` / `OSError`), which is exactly the interface the
  `try`/`except` block in `scan_directory` programs against.  Each entry
  reports what the `pathlib` calls used by the code would report about it:
  its path, `is_file()` (which follows symlinks), `is_symlink()`, and
  `resolve()`.
* Python's `set` of seen paths is a list with membership testing; Python's
  `list.sort()` on `Path` values sorts by the canonical path string
  (CPython compares paths by their case-normalised string, which on POSIX
  is `str(path)`).
-/

/-- A POSIX path below the root, as its list of components
(`PurePosixPath.parts` without the leading `/`). -/
abbrev PyPath := List String

/-- The string `str(path)` for an absolute POSIX path: `/` followed by the components
joined with `/`; `Path("/")` prints as `/`. -/
def pyStr (p : PyPath) : String :=
  if p.isEmpty then "/" else String.join (p.map (fun c => "/" ++ c))

/-- Python `path.name`: the final component, or `""` for the root path. -/
def pyName (p : PyPath) : String := p.getLast?.getD ""

/-- Python `path.parents`: every proper ancestor of `p`, down to the filesystem
root `/` (the empty component list).  The order of the Python sequence is
irrelevant here because the code only asks whether *any* parent satisfies a
predicate. -/
def pyParents (p : PyPath) : List PyPath :=
  (List.range p.length).map (fun k => p.take k)

/-- Index of the last occurrence of `c` in `cs` (`str.rfind` restricted to
a found result). -/
def lastIdxOf (c : Char) (cs : List Char) : Option Nat :=
  ((cs.enum.filter (fun ic => ic.2 = c)).map (fun ic => ic.1)).getLast?

/-- Python `path.suffix`, translated from CPython's `pathlib`:
`i = name.rfind('.'); return name[i:] if 0 < i < len(name) - 1 else ''`.
A leading dot (dotfile) or a trailing dot does not form a suffix. -/
def pySuffix (p : PyPath) : String :=
  let n := (pyName p).toList
  match lastIdxOf '.' n with
  | none => ""
  | some i => if 0 < i ∧ i < n.length - 1 then String.mk (n.drop i) else ""

/-- Python `str.lower()` restricted to ASCII, which is all the code compares. -/
def pyLower (s : String) : String := String.mk (s.data.map Char.toLower)

/-- Python `str.startswith(pre)`. -/
def pyStartsWith (s pre : String) : Bool := pre.data.isPrefixOf s.data

/-- Function `filters.is_yaml_file`: `path.suffix.lower() in {".yaml", ".yml"}`. -/
def is_yaml_file (p : PyPath) : Bool :=
  pyLower (pySuffix p) = ".yaml" ∨ pyLower (pySuffix p) = ".yml"

/-- Function `filters.is_hidden_directory`: `path.name.startswith(".")`. -/
def is_hidden_directory (p : PyPath) : Bool :=
  pyStartsWith (pyName p) "."

/-- The `ScanOptions` model: validated root directory (already resolved to
a canonical absolute path by the validator), the traversal flag, and the
two presentation fields. -/
structure ScanOptions where
  input_dir : PyPath
  recursive : Bool
  format : String
  verbosity : String
deriving DecidableEq, Repr

/-- The `ScanResult` model: discovered files and `(path, message)` error
pairs. -/
structure ScanResult where
  files : List PyPath
  errors : List (PyPath × String)
deriving DecidableEq, Repr

/-- Python `ScanResult.count`. -/
def ScanResult.count (r : ScanResult) : Nat := r.files.length

/-- Python `ScanResult.has_errors`. -/
def ScanResult.has_errors (r : ScanResult) : Bool := r.errors.length > 0

/-- Python `ScanResult.to_json_array`. -/
def ScanResult.to_json_array (r : ScanResult) : List String := r.files.map pyStr

/-- What the loop body observes about one entry yielded by `rglob` /
`iterdir`: its path and the results of the `pathlib` calls the code makes
on it (`is_file()` follows symlinks; `resolve()` canonicalizes). -/
structure DirEntry where
  path : PyPath
  is_file : Bool
  is_symlink : Bool
  resolved : PyPath
deriving DecidableEq, Repr

/-- An OS-level failure raised by the enumeration, as caught by the two
`except` clauses of `scan_directory`. -/
inductive OSErr where
  | permission (msg : String)
  | oserror (msg : String)
deriving DecidableEq, Repr

/-- The error entry `scan_directory` appends for a caught exception:
`(options.input_dir, f"Permission denied: {e}")` or
`(options.input_dir, f"OS error: {e}")`. -/
def OSErr.entry (root : PyPath) : OSErr → PyPath × String
  | .permission m => (root, "Permission denied: " ++ m)
  | .oserror m => (root, "OS error: " ++ m)

/-- One directory-enumeration behaviour of the environment: the entries the
iterator yields, followed (optionally) by an OS-level error that aborts the
iteration.  A failure to open the root at all is `⟨[], some e⟩`. -/
structure Enumeration where
  items : List DirEntry
  fail : Option OSErr
deriving DecidableEq, Repr

/-- Loop state: the `seen_files` set and the `result.files` accumulator. -/
abbrev ScanState := List PyPath × List PyPath

/-- The shared dedup-and-append step:
`if resolved not in seen_files: seen_files.add(resolved); result.files.append(resolved)`. -/
def addFile (st : ScanState) (resolved : PyPath) : ScanState :=
  if resolved ∈ st.1 then st else (resolved :: st.1, st.2 ++ [resolved])

/-- One iteration of the recursive-mode loop body, in the source's order:
skip when any parent directory is hidden, skip symlinks, then add regular
YAML files after canonicalization. -/
def recStep (st : ScanState) (item : DirEntry) : ScanState :=
  if (pyParents item.path).any is_hidden_directory then st
  else if item.is_symlink then st
  else if item.is_file && is_yaml_file item.path then addFile st item.resolved
  else st

/-- One iteration of the non-recursive-mode loop body. -/
def nonRecStep (st : ScanState) (item : DirEntry) : ScanState :=
  if item.is_file && is_yaml_file item.path then addFile st item.resolved
  else st

/-- The whole loop of `scan_directory`, over the entries the enumeration
yielded before any failure. -/
def processItems (recursive : Bool) (items : List DirEntry) : List PyPath :=
  (items.foldl (if recursive then recStep else nonRecStep) ([], [])).2

/-- The comparison `list.sort()` uses on `Path` values: `p1 < p2` iff the
canonical string of `p1` is lexicographically below that of `p2`, so
`pathLe a b` decides `pyStr a ≤ pyStr b` (strings compare by their
character lists). -/
def pathLe (a b : PyPath) : Bool :=
  !(decide ((pyStr b).toList < (pyStr a).toList))

/-- Python `result.files.sort()`: stable sort by canonical path string. -/
def sortFiles (l : List PyPath) : List PyPath :=
  l.insertionSort (fun a b => pathLe a b = true)

/-- Function `scan_directory`, against one enumeration behaviour of the filesystem:
run the mode's loop over the yielded entries, turn the caught failure (if
any) into the single `(input_dir, message)` error entry, and sort the
files.  Totality of this function is the embedding of "never raises". -/
def scan_directory (options : ScanOptions) (enum : Enumeration) : ScanResult :=
  let files := processItems options.recursive enum.items
  let errors := match enum.fail with
    | none => []
    | some e => [e.entry options.input_dir]
  { files := sortFiles files, errors := errors }

/-- A node of the directory tree under the scanned root, as the standard
filesystem layer reports it: a regular file, a directory with its listed
children, or a symbolic link.  A symlink records whether it resolves to a
regular file (`is_file()` follows links), its canonical target, and the
listing that would be visible *through* the link if a traversal followed
it (`shadow`) — used only to state that the traversal never does. -/
inductive Dirent where
  | file (name : String) : Dirent
  | dir (name : String) (children : List Dirent) : Dirent
  | symlink (name : String) (targetIsFile : Bool) (target : PyPath) (shadow : List Dirent) : Dirent
deriving Repr

/-- The `DirEntry` the loop body observes for a node listed inside the
directory `parent`.  A non-symlink node reached without crossing a symlink
under a canonical root resolves to its own path; a symlink resolves to its
target. -/
def Dirent.entryAt (parent : PyPath) : Dirent → DirEntry
  | .file n => ⟨parent ++ [n], true, false, parent ++ [n]⟩
  | .dir n _ => ⟨parent ++ [n], false, false, parent ++ [n]⟩
  | .symlink n tif tgt _ => ⟨parent ++ [n], tif, true, tgt⟩

mutual

/-- Python `Path.rglob("*")` restricted to one node: yield the node's entry and,
for a real (non-symlink) directory, recurse into its children.  `glob`'s
`**` never descends through a directory symlink, so a symlink contributes
only its own entry and its `shadow` is never consulted. -/
def rglobNode (parent : PyPath) : Dirent → List DirEntry
  | .file n => [Dirent.entryAt parent (.file n)]
  | .dir n cs => Dirent.entryAt parent (.dir n cs) :: rglobChildren (parent ++ [n]) cs
  | .symlink n tif tgt sh => [Dirent.entryAt parent (.symlink n tif tgt sh)]

/-- Mapping `rglobNode` over a directory listing. -/
def rglobChildren (parent : PyPath) : List Dirent → List DirEntry
  | [] => []
  | d :: ds => rglobNode parent d ++ rglobChildren parent ds

end

/-- The entries `options.input_dir.rglob("*")` yields for a root directory
whose listing is `tree`. -/
def rglobEntries (root : PyPath) (tree : List Dirent) : List DirEntry :=
  rglobChildren root tree

/-- The entries `options.input_dir.iterdir()` yields: exactly the direct
children of the root, no recursion. -/
def iterdirEntries (root : PyPath) (tree : List Dirent) : List DirEntry :=
  tree.map (Dirent.entryAt root)

mutual

/-- Erase everything that sits behind a symbolic link, at every depth. -/
def eraseShadows : Dirent → Dirent
  | .file n => .file n
  | .dir n cs => .dir n (eraseShadowsList cs)
  | .symlink n tif tgt _ => .symlink n tif tgt []

/-- Mapping `eraseShadows` over a directory listing. -/
def eraseShadowsList : List Dirent → List Dirent
  | [] => []
  | d :: ds => eraseShadows d :: eraseShadowsList ds

end

/-- Erase the contents of the top-level subdirectories (and symlink
shadows) of a listing, leaving only what `iterdir` can observe. -/
def pruneChild : Dirent → Dirent
  | .file n => .file n
  | .dir n _ => .dir n []
  | .symlink n tif tgt _ => .symlink n tif tgt []

/-- The condition under which the recursive-mode loop body adds an entry:
no hidden parent directory, not a symlink, a regular file with a YAML
extension. -/
def qualifiesRec (e : DirEntry) : Bool :=
  !(pyParents e.path).any is_hidden_directory && !e.is_symlink &&
    (e.is_file && is_yaml_file e.path)

/-- The condition under which the non-recursive-mode loop body adds an
entry: a regular file (after following a symlink) with a YAML extension. -/
def qualifiesNonRec (e : DirEntry) : Bool :=
  e.is_file && is_yaml_file e.path

/-- The mode's inclusion condition. -/
def qualifies (recursive : Bool) (e : DirEntry) : Bool :=
  if recursive then qualifiesRec e else qualifiesNonRec e

/-- The mode's loop body. -/
def stepFn (recursive : Bool) : ScanState → DirEntry → ScanState :=
  if recursive then recStep else nonRecStep

theorem processItems_eq (recursive : Bool) (items : List DirEntry) :
    processItems recursive items = (items.foldl (stepFn recursive) ([], [])).2 := rfl

/-- Loop invariant: the accumulated file list has no duplicates and holds
exactly the members of the seen-set. -/
def scanInv (st : ScanState) : Prop :=
  st.2.Nodup ∧ ∀ p, p ∈ st.1 ↔ p ∈ st.2

theorem addFile_mem (st : ScanState) (r p : PyPath) (h : scanInv st) :
    p ∈ (addFile st r).2 ↔ p ∈ st.2 ∨ p = r := by
  unfold addFile
  by_cases hr : r ∈ st.1
  · simp only [if_pos hr]
    constructor
    · exact Or.inl
    · rintro (hp | rfl)
      · exact hp
      · exact (h.2 p).mp hr
  · simp only [if_neg hr]
    simp [List.mem_append]

theorem addFile_inv (st : ScanState) (r : PyPath) (h : scanInv st) :
    scanInv (addFile st r) := by
  unfold addFile
  by_cases hr : r ∈ st.1
  · simpa [hr] using h
  · simp only [if_neg hr]
    have hr2 : r ∉ st.2 := fun hm => hr ((h.2 r).mpr hm)
    refine ⟨?_, ?_⟩
    · simp [List.nodup_append, h.1, hr2]
    · intro p
      have hp := h.2 p
      simp only [List.mem_cons, List.mem_append, List.mem_singleton]
      tauto

theorem recStep_eq (st : ScanState) (e : DirEntry) :
    recStep st e = if qualifiesRec e then addFile st e.resolved else st := by
  unfold recStep qualifiesRec
  cases h1 : (pyParents e.path).any is_hidden_directory <;>
    cases h2 : e.is_symlink <;>
      cases h3 : e.is_file <;>
        cases h4 : is_yaml_file e.path <;>
          simp [h1, h2, h3, h4]

theorem nonRecStep_eq (st : ScanState) (e : DirEntry) :
    nonRecStep st e = if qualifiesNonRec e then addFile st e.resolved else st := by
  unfold nonRecStep qualifiesNonRec
  cases h3 : e.is_file <;> cases h4 : is_yaml_file e.path <;> simp [h3, h4]

theorem stepFn_eq (recursive : Bool) (st : ScanState) (e : DirEntry) :
    stepFn recursive st e = if qualifies recursive e then addFile st e.resolved else st := by
  cases recursive
  · simpa [stepFn, qualifies] using nonRecStep_eq st e
  · simpa [stepFn, qualifies] using recStep_eq st e

theorem foldl_stepFn_inv (recursive : Bool) :
    ∀ (items : List DirEntry) (st : ScanState), scanInv st →
      scanInv (items.foldl (stepFn recursive) st)
  | [], _, h => h
  | e :: items, st, h => by
    have hstep : scanInv (stepFn recursive st e) := by
      rw [stepFn_eq]
      by_cases hq : qualifies recursive e = true
      · simpa [hq] using addFile_inv st e.resolved h
      · simpa [hq] using h
    simpa [List.foldl_cons] using foldl_stepFn_inv recursive items (stepFn recursive st e) hstep

theorem foldl_stepFn_mem (recursive : Bool) :
    ∀ (items : List DirEntry) (st : ScanState), scanInv st → ∀ p : PyPath,
      (p ∈ (items.foldl (stepFn recursive) st).2 ↔
        p ∈ st.2 ∨ ∃ e ∈ items, qualifies recursive e = true ∧ e.resolved = p)
  | [], _, _, p => by simp
  | e :: items, st, h, p => by
    have hstep : scanInv (stepFn recursive st e) := by
      rw [stepFn_eq]
      by_cases hq : qualifies recursive e = true
      · simpa [hq] using addFile_inv st e.resolved h
      · simpa [hq] using h
    have ih := foldl_stepFn_mem recursive items (stepFn recursive st e) hstep p
    rw [List.foldl_cons, ih]
    have hmem : p ∈ (stepFn recursive st e).2 ↔
        p ∈ st.2 ∨ (qualifies recursive e = true ∧ e.resolved = p) := by
      rw [stepFn_eq]
      by_cases hq : qualifies recursive e = true
      · rw [if_pos hq, addFile_mem st e.resolved p h]
        constructor
        · rintro (hp | rfl)
          · exact Or.inl hp
          · exact Or.inr ⟨hq, rfl⟩
        · rintro (hp | ⟨-, rfl⟩)
          · exact Or.inl hp
          · exact Or.inr rfl
      · rw [if_neg hq]
        constructor
        · exact Or.inl
        · rintro (hp | ⟨hq2, -⟩)
          · exact hp
          · exact absurd hq2 hq
    rw [hmem]
    constructor
    · rintro ((hp | hq) | ⟨e2, he2, hq2, hr2⟩)
      · exact Or.inl hp
      · exact Or.inr ⟨e, List.mem_cons_self e items, hq⟩
      · exact Or.inr ⟨e2, List.mem_cons_of_mem e he2, hq2, hr2⟩
    · rintro (hp | ⟨e2, he2, hq2, hr2⟩)
      · exact Or.inl (Or.inl hp)
      · rcases List.mem_cons.mp he2 with rfl | he2
        · exact Or.inl (Or.inr ⟨hq2, hr2⟩)
        · exact Or.inr ⟨e2, he2, hq2, hr2⟩

theorem scanInv_empty : scanInv ([], []) := by
  constructor
  · exact List.nodup_nil
  · intro p; simp

theorem mem_processItems (recursive : Bool) (items : List DirEntry) (p : PyPath) :
    p ∈ processItems recursive items ↔
      ∃ e ∈ items, qualifies recursive e = true ∧ e.resolved = p := by
  rw [processItems_eq]
  have h := foldl_stepFn_mem recursive items ([], []) scanInv_empty p
  simpa using h

theorem processItems_nodup (recursive : Bool) (items : List DirEntry) :
    (processItems recursive items).Nodup := by
  rw [processItems_eq]
  exact (foldl_stepFn_inv recursive items ([], []) scanInv_empty).1

theorem foldl_stepFn_filter (recursive : Bool) (keep : DirEntry → Bool) :
    ∀ (items : List DirEntry) (st : ScanState),
      (∀ e ∈ items, keep e = false → qualifies recursive e = false) →
      (items.filter keep).foldl (stepFn recursive) st = items.foldl (stepFn recursive) st
  | [], _, _ => rfl
  | e :: items, st, h => by
    have hrest : ∀ e2 ∈ items, keep e2 = false → qualifies recursive e2 = false :=
      fun e2 he2 => h e2 (List.mem_cons_of_mem e he2)
    by_cases hk : keep e = true
    · rw [List.filter_cons_of_pos hk, List.foldl_cons, List.foldl_cons]
      exact foldl_stepFn_filter recursive keep items (stepFn recursive st e) hrest
    · have hk2 : keep e = false := by simpa using hk
      have hq : qualifies recursive e = false := h e (List.mem_cons_self e items) hk2
      rw [List.filter_cons_of_neg (by simp [hk2]), List.foldl_cons, stepFn_eq]
      rw [if_neg (by simp [hq])]
      exact foldl_stepFn_filter recursive keep items st hrest

theorem processItems_filter (recursive : Bool) (keep : DirEntry → Bool)
    (items : List DirEntry)
    (h : ∀ e ∈ items, keep e = false → qualifies recursive e = false) :
    processItems recursive (items.filter keep) = processItems recursive items := by
  rw [processItems_eq, processItems_eq, foldl_stepFn_filter recursive keep items ([], []) h]

theorem sortFiles_perm (l : List PyPath) : List.Perm (sortFiles l) l :=
  List.perm_insertionSort _ l

theorem mem_sortFiles (l : List PyPath) (p : PyPath) : p ∈ sortFiles l ↔ p ∈ l :=
  (sortFiles_perm l).mem_iff

theorem sortFiles_nodup (l : List PyPath) (h : l.Nodup) : (sortFiles l).Nodup :=
  ((sortFiles_perm l).nodup_iff).mpr h

theorem pathLe_iff (a b : PyPath) : pathLe a b = true ↔ pyStr a ≤ pyStr b := by
  unfold pathLe
  rw [Bool.not_eq_true', decide_eq_false_iff_not, ← String.lt_iff_toList_lt]
  exact not_lt

theorem sortFiles_sorted (l : List PyPath) :
    (sortFiles l).Sorted (fun a b => pathLe a b = true) := by
  haveI : IsTotal PyPath (fun a b => pathLe a b = true) :=
    ⟨fun a b => by
      rcases le_total (pyStr a) (pyStr b) with h | h
      · exact Or.inl ((pathLe_iff a b).mpr h)
      · exact Or.inr ((pathLe_iff b a).mpr h)⟩
  haveI : IsTrans PyPath (fun a b => pathLe a b = true) :=
    ⟨fun a b c hab hbc =>
      (pathLe_iff a c).mpr (le_trans ((pathLe_iff a b).mp hab) ((pathLe_iff b c).mp hbc))⟩
  exact List.sorted_insertionSort _ l

theorem sortFiles_pairwise_lt (l : List PyPath) (hn : l.Nodup)
    (hinj : ∀ a ∈ l, ∀ b ∈ l, pyStr a = pyStr b → a = b) :
    (sortFiles l).Pairwise (fun a b => pyStr a < pyStr b) := by
  have hboth := List.Pairwise.and (sortFiles_sorted l) (sortFiles_nodup l hn)
  refine List.Pairwise.imp_of_mem ?_ hboth
  intro a b ha hb hab
  refine lt_of_le_of_ne ((pathLe_iff a b).mp hab.1) (fun hstr => hab.2 ?_)
  exact hinj a ((mem_sortFiles l a).mp ha) b ((mem_sortFiles l b).mp hb) hstr

/-- Predicate: `a` occupies a strictly earlier position than `b` in the list `l`. -/
def precedesIn (l : List PyPath) (a b : PyPath) : Prop :=
  ∃ i j, ∃ hi : i < l.length, ∃ hj : j < l.length,
    i < j ∧ l.get ⟨i, hi⟩ = a ∧ l.get ⟨j, hj⟩ = b

mutual

theorem rglobNode_eraseShadows (parent : PyPath) (d : Dirent) :
    rglobNode parent (eraseShadows d) = rglobNode parent d := by
  cases d with
  | file n => rfl
  | dir n cs =>
      simp [eraseShadows, rglobNode, Dirent.entryAt,
        rglobChildren_eraseShadows (parent ++ [n]) cs]
  | symlink n tif tgt sh => rfl

theorem rglobChildren_eraseShadows (parent : PyPath) (ds : List Dirent) :
    rglobChildren parent (eraseShadowsList ds) = rglobChildren parent ds := by
  cases ds with
  | nil => rfl
  | cons d ds =>
      simp [eraseShadowsList, rglobChildren, rglobNode_eraseShadows parent d,
        rglobChildren_eraseShadows parent ds]

end

theorem entryAt_pruneChild (root : PyPath) (d : Dirent) :
    Dirent.entryAt root (pruneChild d) = Dirent.entryAt root d := by
  cases d <;> rfl

theorem iterdirEntries_pruneChild (root : PyPath) (tree : List Dirent) :
    iterdirEntries root (tree.map pruneChild) = iterdirEntries root tree := by
  unfold iterdirEntries
  rw [List.map_map]
  exact List.map_congr_left (fun d _ => entryAt_pruneChild root d)

/-- Claim C1: For every valid `ScanOptions`, `scan_directory` returns
normally and never raises — it is a total function of the options and of
the enumeration behaviour of the filesystem.  Any permission or OS-level
failure while enumerating is captured as an entry in the result's `errors`
list; when the enumeration fails the call returns exactly one error entry
pairing the root path with a message, plus whatever partial file list was
accumulated before the failure, and a top-level failure (no entry yielded)
returns an empty file list; a failure-free enumeration reports no error. -/
theorem scan_directory_error_capture (options : ScanOptions) (items : List DirEntry)
    (err : OSErr) :
    (scan_directory options ⟨items, some err⟩).errors = [err.entry options.input_dir] ∧
    (scan_directory options ⟨items, some err⟩).files =
      sortFiles (processItems options.recursive items) ∧
    (scan_directory options ⟨[], some err⟩).files = [] ∧
    (scan_directory options ⟨items, none⟩).errors = [] :=
  ⟨rfl, rfl, rfl, rfl⟩

/-- The inclusion criterion exactly as the spec words it: the path's
extension, *compared case-insensitively*, is `.yaml` or `.yml`. -/
def specYamlExtension (p : PyPath) : Prop :=
  pyLower (pySuffix p) = pyLower ".yaml" ∨ pyLower (pySuffix p) = pyLower ".yml"

/-- Claim C4: `is_yaml_file` returns true iff the path's extension, compared
case-insensitively, is `.yaml` or `.yml`; `app.YAML`, `app.Yml` and
`app.yaml` qualify while `app.yamlx` and `app.json` do not.  The function
consumes only the path, so no file content is inspected. -/
theorem is_yaml_file_iff_extension (p : PyPath) :
    (is_yaml_file p = true ↔ specYamlExtension p) ∧
    is_yaml_file ["d", "app.YAML"] = true ∧
    is_yaml_file ["d", "app.Yml"] = true ∧
    is_yaml_file ["d", "app.yaml"] = true ∧
    is_yaml_file ["d", "app.yamlx"] = false ∧
    is_yaml_file ["d", "app.json"] = false := by
  refine ⟨?_, by decide, by decide, by decide, by decide, by decide⟩
  unfold is_yaml_file specYamlExtension
  have h1 : pyLower ".yaml" = ".yaml" := by decide
  have h2 : pyLower ".yml" = ".yml" := by decide
  rw [h1, h2]
  simp

/-- Claim C7: In either mode, the returned file list contains no repeated
canonical path, and every path in it is the canonicalized (`resolve()`d)
path of some enumerated entry. -/
theorem scan_files_nodup_canonical (options : ScanOptions) (enum : Enumeration) :
    (scan_directory options enum).files.Nodup ∧
    ∀ p ∈ (scan_directory options enum).files, ∃ e ∈ enum.items, p = e.resolved := by
  constructor
  · exact sortFiles_nodup _ (processItems_nodup _ _)
  · intro p hp
    have hp2 : p ∈ processItems options.recursive enum.items :=
      (mem_sortFiles _ p).mp hp
    rcases (mem_processItems _ _ p).mp hp2 with ⟨e, he, -, hr⟩
    exact ⟨e, he, hr.symm⟩

theorem scan_files_nodup_canonical_witness :
    (scan_directory ⟨["d"], false, "human", "info"⟩
        ⟨[⟨["d", "a.yaml"], true, false, ["d", "a.yaml"]⟩], none⟩).files.Nodup ∧
    ∃ e ∈ [(⟨["d", "a.yaml"], true, false, ["d", "a.yaml"]⟩ : DirEntry)],
      ["d", "a.yaml"] = e.resolved :=
  ⟨(scan_files_nodup_canonical ⟨["d"], false, "human", "info"⟩
      ⟨[⟨["d", "a.yaml"], true, false, ["d", "a.yaml"]⟩], none⟩).1,
   (scan_files_nodup_canonical ⟨["d"], false, "human", "info"⟩
      ⟨[⟨["d", "a.yaml"], true, false, ["d", "a.yaml"]⟩], none⟩).2
      ["d", "a.yaml"] (by decide)⟩

/-- Claim C8: The presentation parameters of `ScanOptions` do not affect
traversal: two options values agreeing on `input_dir` and `recursive` but
differing in `format` and/or `verbosity` produce identical results (files
and errors) against the same filesystem behaviour. -/
theorem presentation_noninterference (o1 o2 : ScanOptions) (enum : Enumeration)
    (hdir : o1.input_dir = o2.input_dir) (hrec : o1.recursive = o2.recursive) :
    scan_directory o1 enum = scan_directory o2 enum := by
  unfold scan_directory
  rw [hdir, hrec]

theorem presentation_noninterference_witness :
    scan_directory ⟨["d"], true, "json", "quiet"⟩
        ⟨[⟨["d", "a.yaml"], true, false, ["d", "a.yaml"]⟩], some (.permission "boom")⟩ =
      scan_directory ⟨["d"], true, "human", "verbose"⟩
        ⟨[⟨["d", "a.yaml"], true, false, ["d", "a.yaml"]⟩], some (.permission "boom")⟩ :=
  presentation_noninterference ⟨["d"], true, "json", "quiet"⟩
    ⟨["d"], true, "human", "verbose"⟩
    ⟨[⟨["d", "a.yaml"], true, false, ["d", "a.yaml"]⟩], some (.permission "boom")⟩
    rfl rfl

/-- Claim C9: Every returned `ScanResult` has at most one error entry, and
any error entry's path is the root directory from `ScanOptions`: the
single `try` block around the whole traversal means a failure at any depth
aborts the remainder of the scan and is attributed to the root path. -/
theorem scan_errors_at_most_one_root (options : ScanOptions) (enum : Enumeration) :
    (scan_directory options enum).errors.length ≤ 1 ∧
    ∀ pr ∈ (scan_directory options enum).errors, pr.1 = options.input_dir := by
  obtain ⟨items, fail⟩ := enum
  cases fail with
  | none =>
      refine ⟨?_, ?_⟩
      · simp [scan_directory]
      · intro pr hpr
        simp [scan_directory] at hpr
  | some e =>
      refine ⟨?_, ?_⟩
      · simp [scan_directory]
      · intro pr hpr
        simp only [scan_directory, List.mem_singleton] at hpr
        subst hpr
        cases e <;> rfl

theorem scan_errors_at_most_one_root_witness :
    (scan_directory ⟨["d"], true, "human", "info"⟩
        ⟨[], some (.oserror "disk")⟩).errors.length ≤ 1 ∧
    ((["d"], "OS error: disk") : PyPath × String).1 = ["d"] :=
  ⟨(scan_errors_at_most_one_root ⟨["d"], true, "human", "info"⟩
      ⟨[], some (.oserror "disk")⟩).1,
   (scan_errors_at_most_one_root ⟨["d"], true, "human", "info"⟩
      ⟨[], some (.oserror "disk")⟩).2 ((["d"], "OS error: disk") : PyPath × String)
      (by decide)⟩

/-- Claim C10: A file whose entire name is `.yaml` or `.yml` is never treated
as a YAML file: `is_yaml_file` is false on it (the leading dot is part of
the name, not an extension, so `path.suffix` is empty), and in both modes
such entries contribute nothing to the scan's results (removing them from
the enumeration leaves the file list unchanged). -/
theorem bare_dotfile_not_yaml :
    (∀ p : PyPath, pyName p = ".yaml" ∨ pyName p = ".yml" → is_yaml_file p = false) ∧
    ∀ (recursive : Bool) (items : List DirEntry),
      processItems recursive
          (items.filter (fun e => !(pyName e.path == ".yaml" || pyName e.path == ".yml"))) =
        processItems recursive items := by
  have hname : ∀ p : PyPath, pyName p = ".yaml" ∨ pyName p = ".yml" →
      is_yaml_file p = false := by
    intro p hp
    unfold is_yaml_file pySuffix
    rcases hp with h | h <;> rw [h] <;> decide
  refine ⟨hname, ?_⟩
  intro recursive items
  apply processItems_filter
  intro e _ hk
  have hn : pyName e.path = ".yaml" ∨ pyName e.path = ".yml" := by
    have := Bool.not_eq_false' .. ▸ hk
    rcases Bool.or_eq_true .. ▸ this with h | h
    · exact Or.inl (by simpa using h)
    · exact Or.inr (by simpa using h)
  have hy := hname e.path hn
  cases recursive <;>
    simp [qualifies, qualifiesRec, qualifiesNonRec, hy]

theorem bare_dotfile_not_yaml_witness :
    is_yaml_file ["d", ".yaml"] = false :=
  bare_dotfile_not_yaml.1 ["d", ".yaml"] (Or.inl (by decide))

/-- The claim's wording for C2: an ancestor directory strictly below the
root-exclusive boundary, i.e. a proper ancestor of the entry's path that
strictly extends the root. -/
def strictlyBelowRoot (root q : PyPath) : Prop :=
  root.length < q.length ∧ q.take root.length = root

instance (root q : PyPath) : Decidable (strictlyBelowRoot root q) :=
  inferInstanceAs (Decidable (root.length < q.length ∧ q.take root.length = root))

/-- Claim C2, counterexample: The claim that an entry is excluded *exactly*
when some ancestor strictly below the root is hidden fails when the root
directory itself is hidden: scanning the root `/.h` containing the plain
file `a.yaml` recursively, the code checks every member of `item.parents`
— which includes the root — so the file is excluded, while no ancestor
strictly below the root is hidden. -/
theorem recursive_hidden_strict_counterexample :
    ¬ (["\x2eh", "a.yaml"] ∈
        (scan_directory ⟨["\x2eh"], true, "human", "info"⟩
          ⟨rglobEntries ["\x2eh"] [.file "a.yaml"], none⟩).files ↔
      ¬ ∃ q ∈ pyParents ["\x2eh", "a.yaml"],
        strictlyBelowRoot ["\x2eh"] q ∧ is_hidden_directory q = true) := by
  decide

/-- Claim C2, amended: In recursive mode, a visited entry contributes to the
result exactly when it is a regular non-symlink YAML file and *no* proper
ancestor of its path is hidden — where the checked ancestors are all
members of `item.parents`, including the root itself and the directories
above the root (not only ancestors strictly inside the scanned tree). -/
theorem recursive_hidden_ancestor_exclusion (options : ScanOptions)
    (hrec : options.recursive = true) (enum : Enumeration) (p : PyPath) :
    p ∈ (scan_directory options enum).files ↔
      ∃ e ∈ enum.items, (pyParents e.path).any is_hidden_directory = false ∧
        e.is_symlink = false ∧ e.is_file = true ∧ is_yaml_file e.path = true ∧
        e.resolved = p := by
  have hfiles : (scan_directory options enum).files =
      sortFiles (processItems options.recursive enum.items) := rfl
  rw [hfiles, hrec, mem_sortFiles, mem_processItems]
  constructor
  · rintro ⟨e, he, hq, hr⟩
    rw [qualifies, if_pos rfl, qualifiesRec] at hq
    simp only [Bool.and_eq_true, Bool.not_eq_true'] at hq
    exact ⟨e, he, hq.1.1, hq.1.2, hq.2.1, hq.2.2, hr⟩
  · rintro ⟨e, he, h1, h2, h3, h4, hr⟩
    refine ⟨e, he, ?_, hr⟩
    rw [qualifies, if_pos rfl, qualifiesRec]
    simp [h1, h2, h3, h4]

theorem recursive_hidden_ancestor_exclusion_witness :
    ["r", "b.yaml"] ∈
      (scan_directory ⟨["r"], true, "human", "info"⟩
        ⟨rglobEntries ["r"] [.dir "\x2egit" [.file "c.yaml"], .file "b.yaml"],
          none⟩).files ↔
    ∃ e ∈ rglobEntries ["r"] [.dir "\x2egit" [.file "c.yaml"], .file "b.yaml"],
      (pyParents e.path).any is_hidden_directory = false ∧
        e.is_symlink = false ∧ e.is_file = true ∧ is_yaml_file e.path = true ∧
        e.resolved = ["r", "b.yaml"] :=
  recursive_hidden_ancestor_exclusion ⟨["r"], true, "human", "info"⟩ rfl
    ⟨rglobEntries ["r"] [.dir "\x2egit" [.file "c.yaml"], .file "b.yaml"], none⟩
    ["r", "b.yaml"]

/-- Claim C5: Symbolic links are never followed in recursive mode.  First:
the entries `rglob` yields are unchanged when everything sitting behind
every symlink (at any depth) is erased, so a symlinked subtree — even one
pointing back into the scanned tree — is never entered, and the traversal
is a total function of the finite directory tree (termination).  Second:
a symlink entry itself, whether pointing to a file or a directory, is
skipped entirely: deleting all symlink entries from the enumeration leaves
the recursive scan's file list unchanged. -/
theorem recursive_symlinks_never_followed :
    (∀ (root : PyPath) (tree : List Dirent),
      rglobEntries root (eraseShadowsList tree) = rglobEntries root tree) ∧
    ∀ (items : List DirEntry),
      processItems true (items.filter (fun e => !e.is_symlink)) =
        processItems true items := by
  constructor
  · intro root tree
    exact rglobChildren_eraseShadows root tree
  · intro items
    apply processItems_filter
    intro e _ hk
    have hs : e.is_symlink = true := by simpa using hk
    simp [qualifies, qualifiesRec, hs]

/-- Claim C6, counterexample: The claim that a top-level symlink to a file
is included exactly when it resolves to a regular file *whose name* passes
the YAML filter fails: the filter is applied to the symlink's own name,
not the target's.  A symlink `app.yaml -> /elsewhere/data.txt` in a
non-recursive scan resolves to a regular file whose name fails the filter,
yet its resolved path is included. -/
theorem nonrecursive_symlink_name_counterexample :
    ¬ ((Dirent.entryAt ["d"]
          (.symlink "app.yaml" true ["elsewhere", "data.txt"] [])).resolved ∈
        (scan_directory ⟨["d"], false, "human", "info"⟩
          ⟨iterdirEntries ["d"]
            [.symlink "app.yaml" true ["elsewhere", "data.txt"] []], none⟩).files ↔
      ((Dirent.entryAt ["d"]
          (.symlink "app.yaml" true ["elsewhere", "data.txt"] [])).is_file = true ∧
        is_yaml_file (Dirent.entryAt ["d"]
          (.symlink "app.yaml" true ["elsewhere", "data.txt"] [])).resolved = true)) := by
  decide

/-- Claim C6, amended: In non-recursive mode, only the direct children of
the root are enumerated: the result is unchanged when the contents of
every subdirectory (and everything behind every symlink) are erased, and a
path is in the result exactly when some direct child — following a
symlink, so a top-level symlink is included exactly when it resolves to a
regular file and the *symlink's own* name passes the YAML filter —
resolves to it. -/
theorem nonrecursive_direct_children (options : ScanOptions)
    (hrec : options.recursive = false) (root : PyPath) (tree : List Dirent)
    (p : PyPath) :
    (p ∈ (scan_directory options ⟨iterdirEntries root tree, none⟩).files ↔
      ∃ d ∈ tree, (Dirent.entryAt root d).is_file = true ∧
        is_yaml_file (Dirent.entryAt root d).path = true ∧
        (Dirent.entryAt root d).resolved = p) ∧
    scan_directory options ⟨iterdirEntries root (tree.map pruneChild), none⟩ =
      scan_directory options ⟨iterdirEntries root tree, none⟩ := by
  constructor
  · have hfiles : (scan_directory options ⟨iterdirEntries root tree, none⟩).files =
        sortFiles (processItems options.recursive (iterdirEntries root tree)) := rfl
    rw [hfiles, hrec, mem_sortFiles, mem_processItems]
    constructor
    · rintro ⟨e, he, hq, hr⟩
      rcases List.mem_map.mp he with ⟨d, hd, rfl⟩
      rw [qualifies, if_neg (by simp), qualifiesNonRec] at hq
      simp only [Bool.and_eq_true] at hq
      exact ⟨d, hd, hq.1, hq.2, hr⟩
    · rintro ⟨d, hd, h1, h2, hr⟩
      refine ⟨Dirent.entryAt root d, List.mem_map_of_mem _ hd, ?_, hr⟩
      rw [qualifies, if_neg (by simp), qualifiesNonRec]
      simp [h1, h2]
  · rw [iterdirEntries_pruneChild]

theorem nonrecursive_direct_children_witness :
    (["d", "a.yaml"] ∈
        (scan_directory ⟨["d"], false, "human", "info"⟩
          ⟨iterdirEntries ["d"] [.file "a.yaml", .dir "sub" [.file "b.yaml"]],
            none⟩).files ↔
      ∃ d ∈ [Dirent.file "a.yaml", Dirent.dir "sub" [.file "b.yaml"]],
        (Dirent.entryAt ["d"] d).is_file = true ∧
          is_yaml_file (Dirent.entryAt ["d"] d).path = true ∧
          (Dirent.entryAt ["d"] d).resolved = ["d", "a.yaml"]) ∧
    scan_directory ⟨["d"], false, "human", "info"⟩
        ⟨iterdirEntries ["d"]
          ([Dirent.file "a.yaml", Dirent.dir "sub" [.file "b.yaml"]].map pruneChild),
          none⟩ =
      scan_directory ⟨["d"], false, "human", "info"⟩
        ⟨iterdirEntries ["d"] [Dirent.file "a.yaml", Dirent.dir "sub" [.file "b.yaml"]],
          none⟩ :=
  nonrecursive_direct_children ⟨["d"], false, "human", "info"⟩ rfl ["d"]
    [Dirent.file "a.yaml", Dirent.dir "sub" [.file "b.yaml"]] ["d", "a.yaml"]

/-- Claim C3: The `files` list of every returned `ScanResult` is sorted
lexicographically by canonical path string: for any two paths `a` and `b`
both present, `a` precedes `b` iff `pyStr a < pyStr b`.  The hypothesis
states that distinct resolved paths in the enumeration have distinct
canonical strings, which every real filesystem guarantees (path components
are nonempty and slash-free, so the canonical string determines the
component list). -/
theorem scan_files_sorted_lexicographically (options : ScanOptions)
    (enum : Enumeration)
    (hinj : ∀ e1 ∈ enum.items, ∀ e2 ∈ enum.items,
      pyStr e1.resolved = pyStr e2.resolved → e1.resolved = e2.resolved)
    (a b : PyPath)
    (ha : a ∈ (scan_directory options enum).files)
    (hb : b ∈ (scan_directory options enum).files) :
    precedesIn (scan_directory options enum).files a b ↔ pyStr a < pyStr b := by
  have hfiles : (scan_directory options enum).files =
      sortFiles (processItems options.recursive enum.items) := rfl
  have hinj0 : ∀ x ∈ processItems options.recursive enum.items,
      ∀ y ∈ processItems options.recursive enum.items, pyStr x = pyStr y → x = y := by
    intro x hx y hy hstr
    rcases (mem_processItems _ _ x).mp hx with ⟨e1, he1, -, hr1⟩
    rcases (mem_processItems _ _ y).mp hy with ⟨e2, he2, -, hr2⟩
    subst hr1; subst hr2
    exact hinj e1 he1 e2 he2 hstr
  have hpw : (sortFiles (processItems options.recursive enum.items)).Pairwise
      (fun x y => pyStr x < pyStr y) :=
    sortFiles_pairwise_lt _ (processItems_nodup _ _) hinj0
  rw [hfiles] at ha hb ⊢
  constructor
  · rintro ⟨i, j, hi, hj, hij, rfl, rfl⟩
    exact (List.pairwise_iff_get.mp hpw) ⟨i, hi⟩ ⟨j, hj⟩ hij
  · intro hlt
    rcases List.mem_iff_get.mp ha with ⟨ia, hga⟩
    rcases List.mem_iff_get.mp hb with ⟨ib, hgb⟩
    rcases Nat.lt_trichotomy ia.val ib.val with h | h | h
    · exact ⟨ia.val, ib.val, ia.isLt, ib.isLt, h, hga, hgb⟩
    · exfalso
      have hab : ia = ib := Fin.ext h
      rw [hab, hgb] at hga
      rw [hga] at hlt
      exact lt_irrefl _ hlt
    · exfalso
      have hba := (List.pairwise_iff_get.mp hpw) ib ia h
      rw [hga, hgb] at hba
      exact absurd hlt (not_lt_of_gt hba)

theorem scan_files_sorted_lexicographically_witness :
    precedesIn
      (scan_directory ⟨["d"], false, "human", "info"⟩
        ⟨[⟨["d", "b.yaml"], true, false, ["d", "b.yaml"]⟩,
          ⟨["d", "a.yaml"], true, false, ["d", "a.yaml"]⟩], none⟩).files
      ["d", "a.yaml"] ["d", "b.yaml"] ↔
    pyStr ["d", "a.yaml"] < pyStr ["d", "b.yaml"] :=
  scan_files_sorted_lexicographically ⟨["d"], false, "human", "info"⟩
    ⟨[⟨["d", "b.yaml"], true, false, ["d", "b.yaml"]⟩,
      ⟨["d", "a.yaml"], true, false, ["d", "a.yaml"]⟩], none⟩
    (by decide) ["d", "a.yaml"] ["d", "b.yaml"] (by decide) (by decide)
